import Mathlib

/-!
Verification of the binary-to-ascii conversion core of libbgcode
(`src/convert/convert.cpp`).

Strings are embedded as `List Char` (the character sequence of the C++
`std::string` / `std::string_view`).  The source stream is embedded at block
granularity: the container is the list of its blocks, and a stream position is
the suffix of blocks that starts at the current offset; `ftell` at a position
equals `blocks.length - suffix.length`, and `fseek` to a saved offset `k`
re-slices the container as `blocks.drop k`.  All positions the converter
records or seeks to are block boundaries, so this abstraction is exact.

The Block Access Layer (`core.cpp`) is not part of the given sources; its
operations are modelled from the spec (sections 3, 6).  One point of the spec
is internally inconsistent: section 6 says the typed
`read_next_block_header(..., expected_type, ...)` errors on a mismatch, but
the worked example of section 8 only behaves as described if the typed read
searches forward, skipping the content of non-matching blocks (which is also
how the upstream library behaves, and is required because on the wire the
PrintMetadata and SlicerMetadata blocks sit between the thumbnails and the
GCode blocks).  The searching semantics is used here.
-/

set_option maxHeartbeats 1000000

namespace LibBgcode

/-- Whitespace test of the trim loops (convert.cpp lines 16-18): space or tab. -/
def isWS (c : Char) : Bool := c == ' ' || c == '\t'

/-- The two scanning loops of `trim` (convert.cpp lines 16 and 18), which are
mirror images of each other.  Rendered structurally on the scanned suffix: the
C++ guard `start < str.size() - 1` (resp. `end > 0`) holds exactly when at
least two characters of the scanning direction remain, so the loop counts
leading whitespace characters but never consumes the final position. -/
def boundedWsRun : List Char → Nat
  | c :: d :: rest => if isWS c then boundedWsRun (d :: rest) + 1 else 0
  | _ => 0

/-- `trim` (convert.cpp lines 11-23): `start` is the index reached by the
forward loop, `e` the index reached by the backward loop (scanning
`s.reverse`); the result is the sub-span `[start, e]` unless the emptiness
condition of line 19 holds. -/
def trim (s : List Char) : List Char :=
  if s.isEmpty then []
  else
    let start := boundedWsRun s
    let e := s.length - 1 - boundedWsRun s.reverse
    if (start = e ∧ isWS (s.getD e ' ')) ∨ e < start then []
    else (s.drop start).take (e - start + 1)

/-- `uncomment` (convert.cpp lines 25-28): strip a leading `;` and re-trim,
otherwise return the input unchanged. -/
def uncomment (s : List Char) : List Char :=
  match s with
  | ';' :: rest => trim rest
  | _ => s

/-- One line of `remove_empty_lines` (convert.cpp lines 169-171): a line is
kept verbatim, with a trailing newline, iff its reduced form
`uncomment (trim line)` is non-empty. -/
def keepLine (line : List Char) : List Char :=
  if uncomment (trim line) = [] then [] else line ++ ['\n']

/-- The iterator loop of `remove_empty_lines` (convert.cpp lines 159-173),
rendered structurally: `line` is the slice `[begin_it, end_it)` accumulated so
far.  (For data not ending in `'\n'` the C++ advances `end_it` past
`data.end()`, which is undefined behaviour; the model processes the final
unterminated line and stops, and a data block that ends in `'\n'` never
reaches that corner.) -/
def removeEmptyLinesGo (line : List Char) : List Char → List Char
  | [] => keepLine line
  | c :: rest =>
      if c = '\n' then keepLine line ++ removeEmptyLinesGo [] rest
      else removeEmptyLinesGo (line ++ [c]) rest

/-- `remove_empty_lines` (convert.cpp lines 157-176). -/
def remove_empty_lines (data : List Char) : List Char :=
  removeEmptyLinesGo [] data

/-! ### Base64 (the boost encoder used at convert.cpp lines 120-123)

`boost::beast::detail::base64` implements RFC 4648 base64 with `=` padding.
Modelled from the spec (section 4.2): base-64-encode the whole payload. -/

/-- The base64 alphabet. -/
def b64Alphabet : List Char :=
  "ABCDEFGHIJKLMNOPQRSTUVWXYZabcdefghijklmnopqrstuvwxyz0123456789+/".data

/-- Character for a 6-bit value. -/
def b64Char (n : Nat) : Char := b64Alphabet.getD n 'A'

/-- 6-bit value of an alphabet character. -/
def b64Val (c : Char) : Nat := b64Alphabet.indexOf c

/-- RFC 4648 base64 encoding with padding, three input bytes per four output
characters. -/
def base64Encode : List Nat → List Char
  | b0 :: b1 :: b2 :: rest =>
      let n := b0 * 65536 + b1 * 256 + b2
      b64Char (n / 262144) :: b64Char (n / 4096 % 64) :: b64Char (n / 64 % 64) ::
        b64Char (n % 64) :: base64Encode rest
  | [b0, b1] =>
      let n := b0 * 65536 + b1 * 256
      [b64Char (n / 262144), b64Char (n / 4096 % 64), b64Char (n / 64 % 64), '=']
  | [b0] =>
      let n := b0 * 65536
      [b64Char (n / 262144), b64Char (n / 4096 % 64), '=', '=']
  | [] => []

/-- RFC 4648 base64 decoding, four characters per three output bytes, with
`=` padding handled at a quartet. -/
def base64Decode : List Char → List Nat
  | c0 :: c1 :: c2 :: c3 :: rest =>
      if c2 = '=' then [(b64Val c0 * 262144 + b64Val c1 * 4096) / 65536]
      else if c3 = '=' then
        let n := b64Val c0 * 262144 + b64Val c1 * 4096 + b64Val c2 * 64
        [n / 65536, n / 256 % 256]
      else
        let n := b64Val c0 * 262144 + b64Val c1 * 4096 + b64Val c2 * 64 + b64Val c3
        n / 65536 :: n / 256 % 256 :: n % 256 :: base64Decode rest
  | _ => []

/-- The line-wrapping loop of the thumbnail conversion (convert.cpp lines
135-143): rows of at most `max_row_length = 78` characters are cut off the
encoded text; a final non-empty remainder becomes the last row. -/
def wrapRows (encoded : List Char) : List (List Char) :=
  if 78 < encoded.length then encoded.take 78 :: wrapRows (encoded.drop 78)
  else if 0 < encoded.length then [encoded] else []
termination_by encoded.length
decreasing_by simp only [List.length_drop]; omega

/-! ### Block model (Block Access Layer, modelled from the spec) -/

/-- Result codes (spec section 6): the codes the converter produces or
propagates. -/
inductive EResult where
  | Success
  | ReadError
  | WriteError
  | InvalidSequenceOfBlocks
  deriving DecidableEq, Repr

/-- Block type tags of the wire format (spec section 3). -/
def tagFileMetadata : Nat := 0
def tagGCode : Nat := 1
def tagSlicerMetadata : Nat := 2
def tagPrinterMetadata : Nat := 3
def tagPrintMetadata : Nat := 4
def tagThumbnail : Nat := 5

/-- Decoded block payloads (spec section 3): metadata blocks decode to an
ordered key/value list, a thumbnail block to format tag, width, height and raw
image bytes, a GCode block to its raw text. -/
inductive BlockPayload where
  | metadata (pairs : List (List Char × List Char))
  | thumbnail (format width height : Nat) (data : List Nat)
  | gcode (raw : List Char)
  deriving DecidableEq, Repr

/-- A block: its header type tag and its decoded payload. -/
structure Block where
  type : Nat
  payload : BlockPayload
  deriving DecidableEq, Repr

/-- Modelled from the spec: the container handle (spec section 3) - its block
sequence plus the outcomes of the two prelude calls `is_valid_binary_gcode`
and `read_header`, which the converter only propagates. -/
structure Container where
  blocks : List Block
  validRes : EResult
  headerRes : EResult
  deriving DecidableEq, Repr

/-- `file_size` (convert.cpp lines 55-57): the total length of the container,
in block-boundary units. -/
def file_size (c : Container) : Nat := c.blocks.length

/-- Modelled from the spec: `read_next_block_header` without an expected type
(spec section 6) reads the header of the block at the current position and
yields its type tag; reading past the end of the container fails. -/
def read_next_block_header : List Block → Except EResult Nat
  | [] => .error .ReadError
  | b :: _ => .ok b.type

/-- Modelled from the spec: the typed
`read_next_block_header(..., expected_type, ...)` searches forward for the
next block of the wanted type, skipping the content of non-matching blocks
(see the header comment); it fails at end of container.  The result is the
stream positioned at the found block, its header consumed. -/
def read_next_block_header_searching (t : Nat) : List Block → Except EResult (List Block)
  | [] => .error .ReadError
  | b :: rest => if b.type = t then .ok (b :: rest) else read_next_block_header_searching t rest

/-- Modelled from the spec: `skip_block_content` (spec section 6) skips the
payload of the block whose header was just read. -/
def skip_block_content : List Block → Except EResult (List Block)
  | [] => .error .ReadError
  | _ :: rest => .ok rest

/-- Modelled from the spec: `read_data` of a metadata block (spec section 6)
decodes the ordered key/value list and leaves the stream after the block;
a payload that is not a metadata payload fails to parse. -/
def read_metadata : List Block → Except EResult (List (List Char × List Char) × List Block)
  | [] => .error .ReadError
  | b :: rest =>
      match b.payload with
      | .metadata ps => .ok (ps, rest)
      | _ => .error .ReadError

/-- Modelled from the spec: `read_data` of a thumbnail block. -/
def read_thumbnail : List Block → Except EResult ((Nat × Nat × Nat × List Nat) × List Block)
  | [] => .error .ReadError
  | b :: rest =>
      match b.payload with
      | .thumbnail f w h d => .ok ((f, w, h, d), rest)
      | _ => .error .ReadError

/-- Modelled from the spec: `read_data` of a GCode block. -/
def read_gcode : List Block → Except EResult (List Char × List Block)
  | [] => .error .ReadError
  | b :: rest =>
      match b.payload with
      | .gcode raw => .ok (raw, rest)
      | _ => .error .ReadError

/-! ### Output text fragments (convert.cpp emission) -/

/-- `write_metadata` (convert.cpp lines 42-48): one `"; key = value\n"` line
per pair, in order. -/
def write_metadata (pairs : List (List Char × List Char)) : List Char :=
  (pairs.map (fun kv => "; ".data ++ kv.1 ++ " = ".data ++ kv.2 ++ ['\n'])).flatten

/-- First-match lookup of the `"Producer"` key (convert.cpp lines 83-84). -/
def findPair (k : List Char) : List (List Char × List Char) → Option (List Char)
  | [] => none
  | kv :: rest => if kv.1 = k then some kv.2 else findPair k rest

/-- The producer line (convert.cpp lines 85-86). -/
def producerOut (fm : List (List Char × List Char)) : List Char :=
  "; generated by ".data ++ ((findPair "Producer".data fm).getD "Unknown".data) ++ "\n\n\n".data

/-- The format label of a thumbnail block (convert.cpp lines 124-131); any
unrecognized tag falls to the PNG label. -/
def formatLabel (f : Nat) : List Char :=
  if f = 1 then "thumbnail_JPG".data
  else if f = 2 then "thumbnail_QOI".data
  else "thumbnail".data

/-- The thumbnail begin line (convert.cpp lines 132-133). -/
def thumbBeginLine (f w h n : Nat) : List Char :=
  "\n;\n; ".data ++ formatLabel f ++ " begin ".data ++ (Nat.repr w).data ++ "x".data ++
    (Nat.repr h).data ++ " ".data ++ (Nat.repr n).data ++ ['\n']

/-- The thumbnail end line (convert.cpp line 144). -/
def thumbEndLine (f : Nat) : List Char :=
  "; ".data ++ formatLabel f ++ " end\n;\n".data

/-- The emitted body of a thumbnail: each wrapped row as a `"; <row>\n"` line
(convert.cpp lines 135-143). -/
def thumbBody (data : List Nat) : List Char :=
  ((wrapRows (base64Encode data)).map (fun r => "; ".data ++ r ++ ['\n'])).flatten

/-- The full emitted framing of one thumbnail block (convert.cpp
lines 120-145). -/
def thumbFraming (f w h : Nat) (data : List Nat) : List Char :=
  thumbBeginLine f w h (base64Encode data).length ++ thumbBody data ++ thumbEndLine f

/-- The framing a thumbnail-typed block produces (helper over `Block`). -/
def thumbFramingOf (b : Block) : List Char :=
  match b.payload with
  | .thumbnail f w h d => thumbFraming f w h d
  | _ => []

/-- The normalized text a GCode-typed block produces (helper over `Block`). -/
def gcodeOutOf (b : Block) : List Char :=
  match b.payload with
  | .gcode raw => remove_empty_lines raw
  | _ => []

/-! ### The conversion orchestrator (convert.cpp lines 35-249) -/

/-- The thumbnail loop (convert.cpp lines 109-152): `restore` is the
`restore_position` local, re-recorded (as `ftell`) after each thumbnail is
consumed and before the next header read; the loop exits successfully at the
first non-Thumbnail header, leaving the stream at that block with its header
read.  Returns (result, stream, restore, output). -/
def thumbnailsRun (fl : Nat) : List Block → Nat → List Char →
    EResult × List Block × Nat × List Char
  | stream, restore, out =>
    match stream with
    | [] => (.ReadError, [], restore, out)
    | b :: rest =>
        if b.type = tagThumbnail then
          match b.payload with
          | .thumbnail f w h d =>
              thumbnailsRun fl rest (fl - rest.length) (out ++ thumbFraming f w h d)
          | _ => (.ReadError, b :: rest, restore, out)
        else (.Success, b :: rest, restore, out)

/-- The GCode loop (convert.cpp lines 188-205): while the read header's type
is GCode, decode the block and append its normalized text; after a block, if
the stream position equals the container length the loop breaks successfully,
otherwise the next header is read (failing at end of data) and the loop
continues. -/
def gcodeLoop : List Block → List Char → EResult × List Block × List Char
  | [], out => (.ReadError, [], out)
  | b :: rest, out =>
      if b.type = tagGCode then
        match b.payload with
        | .gcode raw =>
            if rest.isEmpty then (.Success, rest, out ++ remove_empty_lines raw)
            else gcodeLoop rest (out ++ remove_empty_lines raw)
        | _ => (.ReadError, b :: rest, out)
      else (.Success, b :: rest, out)

/-- The GCode conversion phase (convert.cpp lines 178-205): emit the gap line,
skip the content of the block whose header terminated the thumbnail loop,
search for the next GCode block and run the GCode loop.  The
`restore_position` local is in scope but never assigned here; it is passed
through.  Returns (result, stream, restore, output). -/
def gcodePhase (stream : List Block) (restore : Nat) (out : List Char) :
    EResult × List Block × Nat × List Char :=
  let out1 := out ++ ['\n']
  match skip_block_content stream with
  | .error e => (e, stream, restore, out1)
  | .ok st1 =>
      match read_next_block_header_searching tagGCode st1 with
      | .error e => (e, st1, restore, out1)
      | .ok st2 =>
          match gcodeLoop st2 out1 with
          | (r, st3, out3) => (r, st3, restore, out3)

/-- The resumed tail of the conversion (convert.cpp lines 210-248): seek back
to the saved offset, then convert the PrintMetadata block (mandated type)
followed by the SlicerMetadata block (mandated type) with its config
framing. -/
def resumePhases (c : Container) (restore : Nat) (out : List Char) : EResult × List Char :=
  let stream := c.blocks.drop restore
  match read_next_block_header stream with
  | .error e => (e, out)
  | .ok t =>
      if t ≠ tagPrintMetadata then (.InvalidSequenceOfBlocks, out)
      else
        match read_metadata stream with
        | .error e => (e, out)
        | .ok (pm, st1) =>
            let out1 := out ++ ['\n'] ++ write_metadata pm
            match read_next_block_header st1 with
            | .error e => (e, out1)
            | .ok t2 =>
                if t2 ≠ tagSlicerMetadata then (.InvalidSequenceOfBlocks, out1)
                else
                  match read_metadata st1 with
                  | .error e => (e, out1)
                  | .ok (sm, _) =>
                      (.Success, out1 ++ "\n; prusaslicer_config = begin\n".data ++
                        write_metadata sm ++ "; prusaslicer_config = end\n\n".data)

/-- The conversion from the printer-metadata block on (convert.cpp lines
89-248): printer metadata, the thumbnail loop, the GCode phase, then the
resumed metadata tail.  `st1` is the stream after the file-metadata block and
`out1` the output flushed so far. -/
def afterFileMetadata (c : Container) (st1 : List Block) (out1 : List Char) :
    EResult × List Char :=
  match read_next_block_header st1 with
  | .error e => (e, out1)
  | .ok t1 =>
      if t1 ≠ tagPrinterMetadata then (.InvalidSequenceOfBlocks, out1)
      else
        match read_metadata st1 with
        | .error e => (e, out1)
        | .ok (pm, st2) =>
            let out2 := out1 ++ write_metadata pm
            match thumbnailsRun (file_size c) st2 (file_size c - st2.length) out2 with
            | (r3, st3, restore3, out3) =>
                if r3 ≠ .Success then (r3, out3)
                else
                  match gcodePhase st3 restore3 out3 with
                  | (r4, _, restore4, out4) =>
                      if r4 ≠ .Success then (r4, out4)
                      else resumePhases c restore4 out4

/-- `from_binary_to_ascii` (convert.cpp lines 35-249).  Output writes are
modelled as list concatenation (per spec section 7 a failed run leaves the
already flushed output in place, which the returned list is); the write-error
paths of an unwritable sink are outside this model.  Returns the result code
and the full flushed output. -/
def from_binary_to_ascii (c : Container) : EResult × List Char :=
  if c.validRes ≠ EResult.Success then (c.validRes, [])
  else if c.headerRes ≠ EResult.Success then (c.headerRes, [])
  else
    match read_next_block_header c.blocks with
    | .error e => (e, [])
    | .ok t0 =>
        if t0 ≠ tagFileMetadata then (.InvalidSequenceOfBlocks, [])
        else
          match read_metadata c.blocks with
          | .error e => (e, [])
          | .ok (fm, st1) => afterFileMetadata c st1 (producerOut fm)

/-! ### Spec-side definitions (for refinement statements) -/

/-- The spec's description of `trim` (spec section 4.1): the sub-span with
leading and trailing space and tab characters removed. -/
def trimSpec (s : List Char) : List Char :=
  ((s.dropWhile isWS).reverse.dropWhile isWS).reverse

/-- A thumbnail-typed block carrying a thumbnail payload. -/
def isThumbBlockB (b : Block) : Bool :=
  b.type == tagThumbnail &&
    (match b.payload with | .thumbnail _ _ _ _ => true | _ => false)

/-- A GCode-typed block carrying a GCode payload. -/
def isGCodeBlockB (b : Block) : Bool :=
  b.type == tagGCode &&
    (match b.payload with | .gcode _ => true | _ => false)

/-- A metadata block of the given type tag. -/
def metaBlock (t : Nat) (ps : List (List Char × List Char)) : Block :=
  ⟨t, .metadata ps⟩

/-- A well-formed container in the wire order of the format: FileMetadata,
PrinterMetadata, the thumbnails, PrintMetadata, SlicerMetadata, then the GCode
blocks (see the header comment). -/
def mkCanonical (fm pm pr sl : List (List Char × List Char))
    (thumbs gcodes : List Block) : Container :=
  ⟨[metaBlock tagFileMetadata fm, metaBlock tagPrinterMetadata pm] ++ thumbs ++
    [metaBlock tagPrintMetadata pr, metaBlock tagSlicerMetadata sl] ++ gcodes,
   .Success, .Success⟩

/-- The slicer-config framing (convert.cpp lines 241-246). -/
def slicerOut (sl : List (List Char × List Char)) : List Char :=
  "\n; prusaslicer_config = begin\n".data ++ write_metadata sl ++
    "; prusaslicer_config = end\n\n".data

/-! ## Theorems -/

theorem dropWhile_eq_drop_length_takeWhile (p : Char → Bool) (l : List Char) :
    l.dropWhile p = l.drop (l.takeWhile p).length := by
  induction l with
  | nil => rfl
  | cons a t ih =>
    by_cases h : p a
    · simp [List.dropWhile_cons_of_pos h, List.takeWhile_cons_of_pos h, ih]
    · simp [List.dropWhile_cons_of_neg h, List.takeWhile_cons_of_neg h]

theorem takeWhile_append_of_exists (p : Char → Bool) (u v : List Char)
    (h : ∃ x ∈ u, ¬ p x) : (u ++ v).takeWhile p = u.takeWhile p := by
  induction u with
  | nil => simp at h
  | cons a t ih =>
    by_cases hp : p a
    · have h2 : ∃ x ∈ t, ¬ p x := by
        rcases h with ⟨x, hx, hpx⟩
        rcases List.mem_cons.mp hx with rfl | hxt
        · exact absurd hp hpx
        · exact ⟨x, hxt, hpx⟩
      simp [List.takeWhile_cons_of_pos hp, ih h2]
    · simp [List.takeWhile_cons_of_neg hp]

theorem boundedWsRun_eq (l : List Char) :
    boundedWsRun l = min (l.takeWhile isWS).length (l.length - 1) := by
  induction l with
  | nil => simp [boundedWsRun]
  | cons c t ih =>
    cases t with
    | nil =>
      by_cases h : isWS c <;> simp [boundedWsRun, List.takeWhile_cons, h]
    | cons d r =>
      by_cases h : isWS c
      · have hlen : 1 ≤ (d :: r).length := by simp
        simp only [boundedWsRun, if_pos h, ih, List.takeWhile_cons_of_pos h]
        simp only [List.length_cons]
        omega
      · simp [boundedWsRun, h, List.takeWhile_cons_of_neg h]

theorem length_takeWhile_lt_of_exists (p : Char → Bool) (l : List Char)
    (h : ∃ x ∈ l, p x = false) : (l.takeWhile p).length < l.length := by
  induction l with
  | nil => simp at h
  | cons a t ih =>
    by_cases hp : p a
    · have h2 : ∃ x ∈ t, p x = false := by
        rcases h with ⟨x, hx, hpx⟩
        rcases List.mem_cons.mp hx with rfl | hxt
        · rw [hp] at hpx; cases hpx
        · exact ⟨x, hxt, hpx⟩
      simp only [List.takeWhile_cons_of_pos hp, List.length_cons]
      exact Nat.succ_lt_succ (ih h2)
    · simp only [List.takeWhile_cons_of_neg hp, List.length_nil, List.length_cons]
      omega

theorem takeWhile_all_append (p : Char → Bool) (A B : List Char)
    (hA : ∀ c ∈ A, p c) (hBne : B ≠ []) (hhead : p (B.head hBne) = false) :
    (A ++ B).takeWhile p = A := by
  induction A with
  | nil =>
    cases B with
    | nil => simp at hBne
    | cons b t =>
      simp only [List.head_cons] at hhead
      simp [List.takeWhile_cons, hhead]
  | cons a t ih =>
    have hpa : p a := hA a (by simp)
    simp [List.takeWhile_cons_of_pos hpa, ih fun c hc => hA c (by simp [hc])]

theorem dropWhile_all_append (p : Char → Bool) (A B : List Char)
    (hA : ∀ c ∈ A, p c) (hBne : B ≠ []) (hhead : p (B.head hBne) = false) :
    (A ++ B).dropWhile p = B := by
  induction A with
  | nil =>
    cases B with
    | nil => simp at hBne
    | cons b t =>
      simp only [List.head_cons] at hhead
      simp [List.dropWhile_cons, hhead]
  | cons a t ih =>
    have hpa : p a := hA a (by simp)
    simp [List.dropWhile_cons_of_pos hpa, ih fun c hc => hA c (by simp [hc])]

theorem trim_of_all_ws (s : List Char) (h : ∀ c ∈ s, isWS c) : trim s = [] := by
  cases s with
  | nil => rfl
  | cons a t =>
    have htw : List.takeWhile isWS (a :: t) = a :: t := List.takeWhile_eq_self_iff.mpr h
    have htwr : List.takeWhile isWS (a :: t).reverse = (a :: t).reverse :=
      List.takeWhile_eq_self_iff.mpr fun c hc => h c (List.mem_reverse.mp hc)
    have hs : boundedWsRun (a :: t) = t.length := by
      rw [boundedWsRun_eq, htw]; simp
    have he : boundedWsRun (a :: t).reverse = t.length := by
      rw [boundedWsRun_eq, htwr]; simp
    cases t with
    | nil =>
      have ha : isWS a = true := h a (by simp)
      simp [trim, boundedWsRun, ha]
    | cons b u =>
      simp only [trim, List.isEmpty_cons, Bool.false_eq_true, if_false, hs, he,
        List.length_cons]
      split
      · rfl
      · next hcond =>
          exfalso
          apply hcond
          right
          omega

theorem trim_append (A B : List Char) (hA : ∀ c ∈ A, isWS c) (hBne : B ≠ [])
    (hhead : isWS (B.head hBne) = false) :
    trim (A ++ B) = B.take (B.length - (B.reverse.takeWhile isWS).length) := by
  have hBpos : 0 < B.length := List.length_pos.mpr hBne
  have hwlt : (B.reverse.takeWhile isWS).length < B.length := by
    have := length_takeWhile_lt_of_exists isWS B.reverse
      ⟨B.head hBne, List.mem_reverse.mpr (List.head_mem hBne), hhead⟩
    simpa using this
  have htw : (A ++ B).takeWhile isWS = A := takeWhile_all_append isWS A B hA hBne hhead
  have hstart : boundedWsRun (A ++ B) = A.length := by
    rw [boundedWsRun_eq, htw, List.length_append]
    omega
  have hTW : (A ++ B).reverse.takeWhile isWS = B.reverse.takeWhile isWS := by
    rw [List.reverse_append]
    exact takeWhile_append_of_exists isWS _ _
      ⟨B.head hBne, List.mem_reverse.mpr (List.head_mem hBne), by simp [hhead]⟩
  have hend : boundedWsRun (A ++ B).reverse = (B.reverse.takeWhile isWS).length := by
    rw [boundedWsRun_eq, hTW, List.length_reverse, List.length_append]
    omega
  have hidx : B.length - 1 - (B.reverse.takeWhile isWS).length < B.length := by omega
  have helem : isWS (B.get ⟨B.length - 1 - (B.reverse.takeWhile isWS).length, hidx⟩) =
      false := by
    have h1 : B.reverse.dropWhile isWS = B.reverse.drop (B.reverse.takeWhile isWS).length :=
      dropWhile_eq_drop_length_takeWhile isWS B.reverse
    have hw2 : (B.reverse.takeWhile isWS).length < B.reverse.length := by simp; omega
    have h2 : B.reverse.dropWhile isWS ≠ [] := by
      rw [h1, List.drop_eq_getElem_cons hw2]
      simp
    have h3 := List.head_dropWhile_not isWS B.reverse h2
    have h4 : (B.reverse.dropWhile isWS).head h2 =
        B.reverse.get ⟨(B.reverse.takeWhile isWS).length, hw2⟩ := by
      simp_rw [h1, List.drop_eq_getElem_cons hw2]
      simp [List.get_eq_getElem]
    rw [h4] at h3
    rw [List.get_eq_getElem, List.getElem_reverse] at h3
    simpa [List.get_eq_getElem] using h3
  have hgetD : (A ++ B).getD (A.length + (B.length - 1 - (B.reverse.takeWhile isWS).length)) ' ' =
      B.get ⟨B.length - 1 - (B.reverse.takeWhile isWS).length, hidx⟩ := by
    have hlt : A.length + (B.length - 1 - (B.reverse.takeWhile isWS).length) <
        (A ++ B).length := by
      rw [List.length_append]; omega
    rw [List.getD_eq_getElem _ _ hlt, List.getElem_append_right (by omega),
      List.get_eq_getElem]
    congr 1
    show A.length + (B.length - 1 - (List.takeWhile isWS B.reverse).length) - A.length =
      B.length - 1 - (List.takeWhile isWS B.reverse).length
    omega
  have hABne : ¬ (A ++ B).isEmpty = true := by
    simp only [List.isEmpty_iff, List.append_eq_nil]
    rintro ⟨-, hB2⟩
    exact hBne hB2
  simp only [trim, hABne, Bool.false_eq_true, if_false, hstart, hend, List.length_append]
  have he_val : A.length + B.length - 1 - (B.reverse.takeWhile isWS).length =
      A.length + (B.length - 1 - (B.reverse.takeWhile isWS).length) := by omega
  rw [he_val]
  split
  · next hcond =>
      exfalso
      rcases hcond with ⟨heq, hws⟩ | hlt
      · rw [hgetD] at hws
        rw [helem] at hws
        cases hws
      · omega
  · next hcond =>
      rw [List.drop_left]
      congr 1
      omega

theorem trimSpec_append (A B : List Char) (hA : ∀ c ∈ A, isWS c) (hBne : B ≠ [])
    (hhead : isWS (B.head hBne) = false) :
    trimSpec (A ++ B) = B.take (B.length - (B.reverse.takeWhile isWS).length) := by
  rw [trimSpec, dropWhile_all_append isWS A B hA hBne hhead,
    dropWhile_eq_drop_length_takeWhile]
  have h := List.rdrop_eq_reverse_drop_reverse (l := B) (n := (B.reverse.takeWhile isWS).length)
  rw [List.rdrop] at h
  exact h.symm

theorem trim_eq_trimSpec (s : List Char) : trim s = trimSpec s := by
  by_cases hall : ∀ c ∈ s, isWS c
  · rw [trim_of_all_ws s hall, trimSpec, List.dropWhile_eq_nil_iff.mpr hall]
    simp
  · push_neg at hall
    obtain ⟨x, hx, hxw⟩ := hall
    have h1 : List.takeWhile isWS s ++ List.dropWhile isWS s = s :=
      List.takeWhile_append_dropWhile isWS s
    have hBne : List.dropWhile isWS s ≠ [] := fun h =>
      hxw (List.dropWhile_eq_nil_iff.mp h x hx)
    have hA : ∀ c ∈ List.takeWhile isWS s, isWS c := fun c hc => List.mem_takeWhile_imp hc
    have hhead : isWS ((List.dropWhile isWS s).head hBne) = false :=
      List.head_dropWhile_not isWS s hBne
    calc trim s = trim (List.takeWhile isWS s ++ List.dropWhile isWS s) := by rw [h1]
      _ = (List.dropWhile isWS s).take ((List.dropWhile isWS s).length -
            ((List.dropWhile isWS s).reverse.takeWhile isWS).length) :=
        trim_append _ _ hA hBne hhead
      _ = trimSpec (List.takeWhile isWS s ++ List.dropWhile isWS s) :=
        (trimSpec_append _ _ hA hBne hhead).symm
      _ = trimSpec s := by rw [h1]

/-- The container of the spec's worked example (spec section 8): no Producer
key, printer-metadata `("Printer","X1")`, zero thumbnails, one GCode block
with lines `"G1 X0"`, `"; comment"`, `""`, `"G1 X1"`, print-metadata
`("Layers","10")`, slicer-metadata `("nozzle","0.4")`, laid out in the wire
order of the format. -/
def exampleContainer : Container :=
  ⟨[metaBlock tagFileMetadata [],
    metaBlock tagPrinterMetadata [("Printer".data, "X1".data)],
    metaBlock tagPrintMetadata [("Layers".data, "10".data)],
    metaBlock tagSlicerMetadata [("nozzle".data, "0.4".data)],
    Block.mk tagGCode (.gcode "G1 X0\n; comment\n\nG1 X1\n".data)],
   .Success, .Success⟩

theorem removeEmptyLinesGo_line (line rest l : List Char) (hl : '\n' ∉ l) :
    removeEmptyLinesGo line (l ++ '\n' :: rest) =
      keepLine (line ++ l) ++ removeEmptyLinesGo [] rest := by
  induction l generalizing line with
  | nil => simp [removeEmptyLinesGo]
  | cons c t ih =>
    have hc : ¬ c = '\n' := fun h => hl (by simp [h])
    simp only [List.cons_append, removeEmptyLinesGo, if_neg hc]
    show removeEmptyLinesGo (line ++ [c]) (t ++ '\n' :: rest) =
      keepLine (line ++ c :: t) ++ removeEmptyLinesGo [] rest
    rw [ih (line ++ [c]) fun h => hl (by simp [h])]
    simp

theorem remove_empty_lines_eq_filter (lines : List (List Char))
    (h : ∀ l ∈ lines, '\n' ∉ l) :
    remove_empty_lines ((lines.map (fun l => l ++ ['\n'])).flatten) =
      ((lines.filter (fun l => !(uncomment (trim l)).isEmpty)).map
        (fun l => l ++ ['\n'])).flatten := by
  induction lines with
  | nil => rfl
  | cons l ls ih =>
    have hl : '\n' ∉ l := h l (by simp)
    have hls : ∀ x ∈ ls, '\n' ∉ x := fun x hx => h x (by simp [hx])
    simp only [List.map_cons, List.flatten_cons, List.append_assoc, List.singleton_append]
    rw [remove_empty_lines, removeEmptyLinesGo_line [] _ l hl, List.nil_append]
    rw [show removeEmptyLinesGo [] ((ls.map (fun l => l ++ ['\n'])).flatten) =
      remove_empty_lines ((ls.map (fun l => l ++ ['\n'])).flatten) from rfl]
    rw [ih hls, keepLine]
    by_cases hk : uncomment (trim l) = []
    · rw [if_pos hk, List.filter_cons_of_neg (by simp [hk]), List.nil_append]
    · rw [if_neg hk, List.filter_cons_of_pos (by simp [List.isEmpty_iff, hk]),
        List.map_cons, List.flatten_cons, List.append_assoc, List.singleton_append]

/-- C2: a GCode line survives `remove_empty_lines` exactly when its reduced
form - `trim` then `uncomment` applied to it - is non-empty, and surviving
lines are emitted verbatim followed by a newline; in particular the reduced
forms of `"   "`, `";"` and `";   "` are empty while `"G1 X1 ; move"`
survives. -/
theorem gcode_line_normalization (lines : List (List Char))
    (h : ∀ l ∈ lines, '\n' ∉ l) :
    remove_empty_lines ((lines.map (fun l => l ++ ['\n'])).flatten) =
      ((lines.filter (fun l => !(uncomment (trim l)).isEmpty)).map
        (fun l => l ++ ['\n'])).flatten ∧
    uncomment (trim "   ".data) = [] ∧
    uncomment (trim ";".data) = [] ∧
    uncomment (trim ";   ".data) = [] ∧
    uncomment (trim "G1 X1 ; move".data) ≠ [] :=
  ⟨remove_empty_lines_eq_filter lines h, by decide, by decide, by decide, by decide⟩

/-- C1 (counterexample): on the container of the spec's worked example the
conversion does not produce the output text the example states: the line
`"; comment"` has the non-empty reduced form `"comment"`, so the code keeps
it, and only one separator newline is written before the print-metadata
lines. -/
theorem example_conversion_counterexample :
    from_binary_to_ascii exampleContainer ≠
      (EResult.Success,
        ("; generated by Unknown\n\n\n; Printer = X1\n\nG1 X0\nG1 X1\n\n\n; Layers = 10\n\n; prusaslicer_config = begin\n; nozzle = 0.4\n; prusaslicer_config = end\n\n").data) := by
  decide

/-- C1 (amended): on that container the conversion succeeds and writes
exactly the claimed text with the retained `"; comment"` line present and a
single separator newline before the print-metadata section. -/
theorem example_conversion :
    from_binary_to_ascii exampleContainer =
      (EResult.Success,
        ("; generated by Unknown\n\n\n; Printer = X1\n\nG1 X0\n; comment\nG1 X1\n\n; Layers = 10\n\n; prusaslicer_config = begin\n; nozzle = 0.4\n; prusaslicer_config = end\n\n").data) := by
  decide

theorem gcode_line_normalization_witness :
    remove_empty_lines
        ((["G1 X0".data, "; comment".data, "".data, "   ".data, ";".data, ";   ".data,
          "G1 X1 ; move".data].map (fun l => l ++ ['\n'])).flatten) =
      ((["G1 X0".data, "; comment".data, "".data, "   ".data, ";".data, ";   ".data,
          "G1 X1 ; move".data].filter (fun l => !(uncomment (trim l)).isEmpty)).map
        (fun l => l ++ ['\n'])).flatten :=
  (gcode_line_normalization _ (by decide)).1

theorem b64Val_b64Char : ∀ v, v < 64 → b64Val (b64Char v) = v := by decide

theorem b64Char_ne_pad : ∀ v, v < 64 → b64Char v ≠ '=' := by decide

theorem b64Char_mem : ∀ v, v < 64 → b64Char v ∈ b64Alphabet := by decide

theorem base64_roundtrip (bs : List Nat) (h : ∀ b ∈ bs, b < 256) :
    base64Decode (base64Encode bs) = bs := by
  induction bs using base64Encode.induct with
  | case1 b0 b1 b2 rest ih =>
    have hb0 : b0 < 256 := h b0 (by simp)
    have hb1 : b1 < 256 := h b1 (by simp)
    have hb2 : b2 < 256 := h b2 (by simp)
    have hn : b0 * 65536 + b1 * 256 + b2 < 16777216 := by omega
    simp only [base64Encode, base64Decode]
    rw [if_neg (b64Char_ne_pad _ (by omega)), if_neg (b64Char_ne_pad _ (by omega))]
    rw [b64Val_b64Char _ (by omega), b64Val_b64Char _ (by omega),
      b64Val_b64Char _ (by omega), b64Val_b64Char _ (by omega)]
    rw [ih fun b hb => h b (by simp [hb])]
    have e1 : ((b0 * 65536 + b1 * 256 + b2) / 262144 * 262144 +
        (b0 * 65536 + b1 * 256 + b2) / 4096 % 64 * 4096 +
        (b0 * 65536 + b1 * 256 + b2) / 64 % 64 * 64 +
        (b0 * 65536 + b1 * 256 + b2) % 64) = b0 * 65536 + b1 * 256 + b2 := by
      omega
    rw [e1]
    have e2 : (b0 * 65536 + b1 * 256 + b2) / 65536 = b0 := by omega
    have e3 : (b0 * 65536 + b1 * 256 + b2) / 256 % 256 = b1 := by omega
    have e4 : (b0 * 65536 + b1 * 256 + b2) % 256 = b2 := by omega
    rw [e2, e3, e4]
  | case2 b0 b1 =>
    have hb0 : b0 < 256 := h b0 (by simp)
    have hb1 : b1 < 256 := h b1 (by simp)
    simp only [base64Encode, base64Decode]
    rw [if_neg (b64Char_ne_pad _ (by omega))]
    simp only [if_true]
    rw [b64Val_b64Char _ (by omega), b64Val_b64Char _ (by omega),
      b64Val_b64Char _ (by omega)]
    have e2 : ((b0 * 65536 + b1 * 256) / 262144 * 262144 +
        (b0 * 65536 + b1 * 256) / 4096 % 64 * 4096 +
        (b0 * 65536 + b1 * 256) / 64 % 64 * 64) / 65536 = b0 := by omega
    have e3 : ((b0 * 65536 + b1 * 256) / 262144 * 262144 +
        (b0 * 65536 + b1 * 256) / 4096 % 64 * 4096 +
        (b0 * 65536 + b1 * 256) / 64 % 64 * 64) / 256 % 256 = b1 := by omega
    rw [e2, e3]
  | case3 b0 =>
    have hb0 : b0 < 256 := h b0 (by simp)
    simp only [base64Encode, base64Decode]
    simp only [if_true]
    rw [b64Val_b64Char _ (by omega), b64Val_b64Char _ (by omega)]
    have e2 : ((b0 * 65536) / 262144 * 262144 + (b0 * 65536) / 4096 % 64 * 4096) / 65536 =
        b0 := by omega
    rw [e2]
  | case4 => rfl

theorem mem_base64Encode (bs : List Nat) (h : ∀ b ∈ bs, b < 256) :
    ∀ ch ∈ base64Encode bs, ch ∈ b64Alphabet ∨ ch = '=' := by
  induction bs using base64Encode.induct with
  | case1 b0 b1 b2 rest ih =>
    have hb0 : b0 < 256 := h b0 (by simp)
    have hb1 : b1 < 256 := h b1 (by simp)
    have hb2 : b2 < 256 := h b2 (by simp)
    intro ch hch
    simp only [base64Encode, List.mem_cons] at hch
    rcases hch with rfl | rfl | rfl | rfl | hch
    · exact Or.inl (b64Char_mem _ (by omega))
    · exact Or.inl (b64Char_mem _ (by omega))
    · exact Or.inl (b64Char_mem _ (by omega))
    · exact Or.inl (b64Char_mem _ (by omega))
    · exact ih (fun b hb => h b (by simp [hb])) ch hch
  | case2 b0 b1 =>
    have hb0 : b0 < 256 := h b0 (by simp)
    have hb1 : b1 < 256 := h b1 (by simp)
    intro ch hch
    simp only [base64Encode, List.mem_cons] at hch
    rcases hch with rfl | rfl | rfl | rfl | hch
    · exact Or.inl (b64Char_mem _ (by omega))
    · exact Or.inl (b64Char_mem _ (by omega))
    · exact Or.inl (b64Char_mem _ (by omega))
    · exact Or.inr rfl
    · simp at hch
  | case3 b0 =>
    have hb0 : b0 < 256 := h b0 (by simp)
    intro ch hch
    simp only [base64Encode, List.mem_cons] at hch
    rcases hch with rfl | rfl | rfl | rfl | hch
    · exact Or.inl (b64Char_mem _ (by omega))
    · exact Or.inl (b64Char_mem _ (by omega))
    · exact Or.inr rfl
    · exact Or.inr rfl
    · simp at hch
  | case4 => intro ch hch; simp [base64Encode] at hch

theorem wrapRows_flatten (l : List Char) : (wrapRows l).flatten = l := by
  induction l using wrapRows.induct with
  | case1 l hlen ih =>
    rw [wrapRows, if_pos hlen, List.flatten_cons, ih, List.take_append_drop]
  | case2 l hlen hpos =>
    rw [wrapRows, if_neg hlen, if_pos hpos, List.flatten_cons, List.flatten_nil,
      List.append_nil]
  | case3 l hlen hpos =>
    have : l = [] := by
      cases l with
      | nil => rfl
      | cons a t => exfalso; apply hpos; simp
    subst this
    rw [wrapRows]
    simp

theorem wrapRows_row_length (l : List Char) : ∀ r ∈ wrapRows l, r.length ≤ 78 := by
  induction l using wrapRows.induct with
  | case1 l hlen ih =>
    rw [wrapRows, if_pos hlen]
    intro r hr
    rcases List.mem_cons.mp hr with rfl | hr2
    · simp
    · exact ih r hr2
  | case2 l hlen hpos =>
    rw [wrapRows, if_neg hlen, if_pos hpos]
    intro r hr
    rcases List.mem_cons.mp hr with rfl | hr2
    · omega
    · simp at hr2
  | case3 l hlen hpos =>
    rw [wrapRows, if_neg hlen, if_neg hpos]
    intro r hr
    simp at hr

/-- C5: every wrapped thumbnail body row has at most 78 characters, all taken
from the base64 alphabet or the padding character; concatenating the stripped
rows in order reproduces exactly the base-64 encoding of the image payload,
so base-64-decoding that concatenation reproduces the original image bytes;
and a zero-length payload yields no body lines.  The last conjunct records
that the emitted body consists of exactly these rows, each framed as
`"; <row>\n"`. -/
theorem thumbnail_body_correct (data : List Nat) (h : ∀ b ∈ data, b < 256) :
    (∀ r ∈ wrapRows (base64Encode data),
      r.length ≤ 78 ∧ ∀ ch ∈ r, ch ∈ b64Alphabet ∨ ch = '=') ∧
    (wrapRows (base64Encode data)).flatten = base64Encode data ∧
    base64Decode ((wrapRows (base64Encode data)).flatten) = data ∧
    (data = [] → thumbBody data = []) ∧
    thumbBody data =
      ((wrapRows (base64Encode data)).map (fun r => "; ".data ++ r ++ ['\n'])).flatten := by
  refine ⟨?_, wrapRows_flatten _, ?_, ?_, rfl⟩
  · intro r hr
    refine ⟨wrapRows_row_length _ r hr, fun ch hch => mem_base64Encode data h ch ?_⟩
    rw [← wrapRows_flatten (base64Encode data)]
    exact List.mem_flatten.mpr ⟨r, hr, hch⟩
  · rw [wrapRows_flatten]
    exact base64_roundtrip data h
  · intro hd
    subst hd
    rw [thumbBody, show base64Encode [] = [] from rfl]
    unfold wrapRows
    simp

theorem thumbnail_body_correct_witness :
    base64Decode ((wrapRows (base64Encode [10, 20, 30, 40, 255])).flatten) =
      [10, 20, 30, 40, 255] :=
  (thumbnail_body_correct _ (by decide)).2.2.1

/-- C7: `trim` returns the sub-span with leading and trailing space and tab
characters removed (`trimSpec`, written from the spec's words); it is empty
for an empty or all-whitespace input; and the two character accesses it makes
are at indices within the string. -/
theorem trim_correct (s : List Char) :
    trim s = trimSpec s ∧
    ((∀ c ∈ s, isWS c) → trim s = []) ∧
    (s ≠ [] → boundedWsRun s < s.length ∧
      s.length - 1 - boundedWsRun s.reverse < s.length) := by
  refine ⟨trim_eq_trimSpec s, trim_of_all_ws s, fun hne => ⟨?_, ?_⟩⟩
  · rw [boundedWsRun_eq]
    have : 0 < s.length := List.length_pos.mpr hne
    omega
  · have : 0 < s.length := List.length_pos.mpr hne
    omega

theorem trim_correct_witness :
    trim " \tG1 X0  ".data = trimSpec " \tG1 X0  ".data ∧
    trim "  \t ".data = [] ∧
    boundedWsRun " x".data < " x".data.length :=
  ⟨(trim_correct " \tG1 X0  ".data).1,
   (trim_correct "  \t ".data).2.1 (by decide),
   ((trim_correct " x".data).2.2 (by decide)).1⟩

/-! ### Orchestrator lemmas -/

theorem isThumbBlockB_elim (b : Block) (h : isThumbBlockB b = true) :
    b.type = tagThumbnail ∧ ∃ f w hh d, b.payload = .thumbnail f w hh d := by
  cases b with
  | mk ty pl =>
    cases pl with
    | metadata ps => simp [isThumbBlockB] at h
    | thumbnail f w hh d =>
        simp only [isThumbBlockB, Bool.and_eq_true, beq_iff_eq] at h
        exact ⟨h.1, f, w, hh, d, rfl⟩
    | gcode raw => simp [isThumbBlockB] at h

theorem isGCodeBlockB_elim (b : Block) (h : isGCodeBlockB b = true) :
    b.type = tagGCode ∧ ∃ raw, b.payload = .gcode raw := by
  cases b with
  | mk ty pl =>
    cases pl with
    | metadata ps => simp [isGCodeBlockB] at h
    | thumbnail f w hh d => simp [isGCodeBlockB] at h
    | gcode raw =>
        simp only [isGCodeBlockB, Bool.and_eq_true, beq_iff_eq] at h
        exact ⟨h.1, raw, rfl⟩

theorem thumbnailsRun_spec (fl : Nat) (thumbs : List Block) (b : Block) (rest : List Block)
    (out : List Char) (ht : ∀ t ∈ thumbs, isThumbBlockB t)
    (hb : ¬ b.type = tagThumbnail) :
    thumbnailsRun fl (thumbs ++ b :: rest) (fl - (thumbs ++ b :: rest).length) out =
      (.Success, b :: rest, fl - (b :: rest).length,
        out ++ (thumbs.map thumbFramingOf).flatten) := by
  induction thumbs generalizing out with
  | nil =>
    simp only [List.nil_append, thumbnailsRun, if_neg hb, List.map_nil, List.flatten_nil,
      List.append_nil]
  | cons t ts ih =>
    obtain ⟨htype, f, w, hh, d, hpay⟩ := isThumbBlockB_elim t (ht t (by simp))
    simp only [List.cons_append, thumbnailsRun, if_pos htype, hpay]
    show thumbnailsRun fl (ts ++ b :: rest) (fl - (ts ++ b :: rest).length)
        (out ++ thumbFraming f w hh d) = _
    rw [ih (out ++ thumbFraming f w hh d) fun x hx => ht x (by simp [hx])]
    simp only [List.map_cons, List.flatten_cons, List.append_assoc, thumbFramingOf, hpay]

theorem gcodeLoop_all (gcodes : List Block) (out : List Char)
    (hne : gcodes ≠ []) (hg : ∀ b ∈ gcodes, isGCodeBlockB b) :
    gcodeLoop gcodes out = (.Success, [], out ++ (gcodes.map gcodeOutOf).flatten) := by
  induction gcodes generalizing out with
  | nil => cases hne rfl
  | cons g gs ih =>
    obtain ⟨htype, raw, hpay⟩ := isGCodeBlockB_elim g (hg g (by simp))
    simp only [gcodeLoop, if_pos htype, hpay]
    cases gs with
    | nil =>
        simp [gcodeOutOf, hpay]
    | cons x xs =>
        simp only [List.isEmpty_cons, Bool.false_eq_true, if_false]
        rw [ih (out ++ remove_empty_lines raw) (by simp) fun b hb => hg b (by simp [hb])]
        simp [gcodeOutOf, hpay, List.append_assoc]

theorem searching_spec (pre : List Block) (g : Block) (rest : List Block)
    (hpre : ∀ b ∈ pre, ¬ b.type = tagGCode) (hg : g.type = tagGCode) :
    read_next_block_header_searching tagGCode (pre ++ g :: rest) = .ok (g :: rest) := by
  induction pre with
  | nil => simp [read_next_block_header_searching, hg]
  | cons p ps ih =>
    simp only [List.cons_append, read_next_block_header_searching,
      if_neg (hpre p (by simp))]
    exact ih fun b hb => hpre b (by simp [hb])

theorem gcodePhase_restore (stream : List Block) (restore : Nat) (out : List Char) :
    (gcodePhase stream restore out).2.2.1 = restore := by
  rw [gcodePhase]
  cases h1 : skip_block_content stream with
  | error e => simp [h1]
  | ok st1 =>
    simp only [h1]
    cases h2 : read_next_block_header_searching tagGCode st1 with
    | error e => simp [h2]
    | ok st2 => simp [h2]

theorem thumbnailsRun_out_mono (fl : Nat) (stream : List Block) (restore : Nat)
    (out : List Char) :
    ∃ d, (thumbnailsRun fl stream restore out).2.2.2 = out ++ d := by
  induction stream generalizing restore out with
  | nil => exact ⟨[], by simp [thumbnailsRun]⟩
  | cons b rest ih =>
    by_cases hb : b.type = tagThumbnail
    · cases hp : b.payload with
      | thumbnail f w hh d =>
          obtain ⟨d2, hd2⟩ := ih (fl - rest.length) (out ++ thumbFraming f w hh d)
          exact ⟨thumbFraming f w hh d ++ d2, by
            simp only [thumbnailsRun, if_pos hb, hp, hd2, List.append_assoc]⟩
      | metadata ps => exact ⟨[], by simp [thumbnailsRun, if_pos hb, hp]⟩
      | gcode raw => exact ⟨[], by simp [thumbnailsRun, if_pos hb, hp]⟩
    · exact ⟨[], by simp [thumbnailsRun, if_neg hb]⟩

theorem gcodeLoop_out_mono (stream : List Block) (out : List Char) :
    ∃ d, (gcodeLoop stream out).2.2 = out ++ d := by
  induction stream generalizing out with
  | nil => exact ⟨[], by simp [gcodeLoop]⟩
  | cons b rest ih =>
    by_cases hb : b.type = tagGCode
    · cases hp : b.payload with
      | gcode raw =>
          cases hrest : rest.isEmpty with
          | true => exact ⟨remove_empty_lines raw, by
              simp [gcodeLoop, if_pos hb, hp, hrest]⟩
          | false =>
              obtain ⟨d2, hd2⟩ := ih (out ++ remove_empty_lines raw)
              exact ⟨remove_empty_lines raw ++ d2, by
                simp only [gcodeLoop, if_pos hb, hp, hrest, Bool.false_eq_true, if_false,
                  hd2, List.append_assoc]⟩
      | metadata ps => exact ⟨[], by simp [gcodeLoop, if_pos hb, hp]⟩
      | thumbnail f w hh d => exact ⟨[], by simp [gcodeLoop, if_pos hb, hp]⟩
    · exact ⟨[], by simp [gcodeLoop, if_neg hb]⟩

theorem gcodePhase_out_mono (stream : List Block) (restore : Nat) (out : List Char) :
    ∃ d, (gcodePhase stream restore out).2.2.2 = out ++ d := by
  rw [gcodePhase]
  cases h1 : skip_block_content stream with
  | error e => exact ⟨['\n'], by simp [h1]⟩
  | ok st1 =>
    simp only [h1]
    cases h2 : read_next_block_header_searching tagGCode st1 with
    | error e => exact ⟨['\n'], by simp [h2]⟩
    | ok st2 =>
        obtain ⟨d2, hd2⟩ := gcodeLoop_out_mono st2 (out ++ ['\n'])
        exact ⟨'\n' :: d2, by
          simp only [h2]
          simpa [List.append_assoc] using hd2⟩

theorem resumePhases_out_mono (c : Container) (restore : Nat) (out : List Char) :
    ∃ d, (resumePhases c restore out).2 = out ++ d := by
  rw [resumePhases]
  cases h1 : read_next_block_header (c.blocks.drop restore) with
  | error e => exact ⟨[], by simp [h1]⟩
  | ok t =>
    simp only [h1]
    by_cases ht : t ≠ tagPrintMetadata
    · exact ⟨[], by simp [ht]⟩
    · simp only [ht, if_false]
      cases h2 : read_metadata (c.blocks.drop restore) with
      | error e => exact ⟨[], by simp [h2]⟩
      | ok pr =>
        obtain ⟨pm, st1⟩ := pr
        simp only [h2]
        cases h3 : read_next_block_header st1 with
        | error e => exact ⟨'\n' :: write_metadata pm, by simp [h3]⟩
        | ok t2 =>
          simp only [h3]
          by_cases ht2 : t2 ≠ tagSlicerMetadata
          · exact ⟨'\n' :: write_metadata pm, by simp [ht2]⟩
          · simp only [ht2, if_false]
            cases h4 : read_metadata st1 with
            | error e => exact ⟨'\n' :: write_metadata pm, by simp [h4]⟩
            | ok sm =>
                exact ⟨'\n' :: write_metadata pm ++ "\n; prusaslicer_config = begin\n".data ++
                  write_metadata sm.1 ++ "; prusaslicer_config = end\n\n".data, by
                  simp [h4, List.append_assoc]⟩

theorem afterFileMetadata_out_mono (c : Container) (st1 : List Block) (out1 : List Char) :
    ∃ d, (afterFileMetadata c st1 out1).2 = out1 ++ d := by
  rw [afterFileMetadata]
  cases h1 : read_next_block_header st1 with
  | error e => exact ⟨[], by simp⟩
  | ok t1 =>
    by_cases ht1 : t1 ≠ tagPrinterMetadata
    · exact ⟨[], by simp [ht1]⟩
    · simp only [ht1, if_false]
      cases h2 : read_metadata st1 with
      | error e => exact ⟨[], by simp⟩
      | ok pr =>
        obtain ⟨pm, st2⟩ := pr
        simp only [h2]
        obtain ⟨d3, hd3⟩ := thumbnailsRun_out_mono (file_size c) st2
          (file_size c - st2.length) (out1 ++ write_metadata pm)
        cases h3 : thumbnailsRun (file_size c) st2 (file_size c - st2.length)
            (out1 ++ write_metadata pm) with
        | mk r3 s3 =>
          obtain ⟨st3, restore3, out3⟩ := s3
          rw [h3] at hd3
          simp only at hd3
          simp only [h3]
          by_cases hr3 : r3 ≠ .Success
          · exact ⟨write_metadata pm ++ d3, by
              simp [hr3, hd3, List.append_assoc]⟩
          · simp only [hr3, if_false]
            obtain ⟨d4, hd4⟩ := gcodePhase_out_mono st3 restore3 out3
            cases h4 : gcodePhase st3 restore3 out3 with
            | mk r4 s4 =>
              obtain ⟨st4, restore4, out4⟩ := s4
              rw [h4] at hd4
              simp only at hd4
              simp only [h4]
              by_cases hr4 : r4 ≠ .Success
              · exact ⟨write_metadata pm ++ d3 ++ d4, by
                  simp [hr4, hd4, hd3, List.append_assoc]⟩
              · simp only [hr4, if_false]
                obtain ⟨d5, hd5⟩ := resumePhases_out_mono c restore4 out4
                exact ⟨write_metadata pm ++ d3 ++ d4 ++ d5, by
                  simpa [hd4, hd3, List.append_assoc] using hd5⟩

theorem metaBlock_type (t : Nat) (ps : List (List Char × List Char)) :
    (metaBlock t ps).type = t := rfl

theorem metaBlock_payload (t : Nat) (ps : List (List Char × List Char)) :
    (metaBlock t ps).payload = .metadata ps := rfl

theorem canonical_to_resume (fm pm pr sl : List (List Char × List Char))
    (thumbs gcodes : List Block)
    (ht : ∀ b ∈ thumbs, isThumbBlockB b) (hg : ∀ b ∈ gcodes, isGCodeBlockB b)
    (hne : gcodes ≠ []) :
    from_binary_to_ascii (mkCanonical fm pm pr sl thumbs gcodes) =
      resumePhases (mkCanonical fm pm pr sl thumbs gcodes) (2 + thumbs.length)
        (producerOut fm ++ write_metadata pm ++ (thumbs.map thumbFramingOf).flatten ++
          ['\n'] ++ (gcodes.map gcodeOutOf).flatten) := by
  obtain ⟨g, gs, rfl⟩ : ∃ g gs, gcodes = g :: gs := by
    cases gcodes with
    | nil => cases hne rfl
    | cons g gs => exact ⟨g, gs, rfl⟩
  obtain ⟨hgtype, raw, hgpay⟩ := isGCodeBlockB_elim g (hg g (by simp))
  rw [from_binary_to_ascii]
  simp only [mkCanonical, ne_eq, not_true_eq_false, if_false]
  rw [show [metaBlock tagFileMetadata fm, metaBlock tagPrinterMetadata pm] ++ thumbs ++
      [metaBlock tagPrintMetadata pr, metaBlock tagSlicerMetadata sl] ++ g :: gs =
    metaBlock tagFileMetadata fm :: metaBlock tagPrinterMetadata pm ::
      (thumbs ++ metaBlock tagPrintMetadata pr :: metaBlock tagSlicerMetadata sl ::
        g :: gs) from by simp]
  simp only [read_next_block_header, read_metadata, metaBlock_type, metaBlock_payload,
    ne_eq, not_true_eq_false, if_false]
  rw [afterFileMetadata]
  simp only [read_next_block_header, read_metadata, metaBlock_type, metaBlock_payload,
    ne_eq, not_true_eq_false, if_false]
  rw [thumbnailsRun_spec _ thumbs (metaBlock tagPrintMetadata pr)
    (metaBlock tagSlicerMetadata sl :: g :: gs) _ ht
    (by simp [metaBlock, tagPrintMetadata, tagThumbnail])]
  simp only [ne_eq, not_true_eq_false, if_false, reduceCtorEq]
  rw [gcodePhase]
  have hskip : skip_block_content (metaBlock tagPrintMetadata pr ::
      metaBlock tagSlicerMetadata sl :: g :: gs) =
    Except.ok (metaBlock tagSlicerMetadata sl :: g :: gs) := rfl
  have hsearch : read_next_block_header_searching tagGCode
      (metaBlock tagSlicerMetadata sl :: g :: gs) = Except.ok (g :: gs) := by
    simp [read_next_block_header_searching, metaBlock_type, tagSlicerMetadata, tagGCode,
      hgtype]
  simp only [hskip, hsearch]
  rw [gcodeLoop_all (g :: gs) _ (by simp) hg]
  simp only [ne_eq, not_true_eq_false, if_false, reduceCtorEq]
  have harith : file_size (Container.mk (metaBlock tagFileMetadata fm ::
      metaBlock tagPrinterMetadata pm ::
      (thumbs ++ metaBlock tagPrintMetadata pr :: metaBlock tagSlicerMetadata sl ::
        g :: gs)) EResult.Success EResult.Success) -
      (metaBlock tagPrintMetadata pr :: metaBlock tagSlicerMetadata sl :: g :: gs).length =
      2 + thumbs.length := by
    simp [file_size]
    omega
  rw [harith]

theorem canonical_drop (fm pm pr sl : List (List Char × List Char))
    (thumbs gcodes : List Block) :
    (mkCanonical fm pm pr sl thumbs gcodes).blocks.drop (2 + thumbs.length) =
      metaBlock tagPrintMetadata pr :: metaBlock tagSlicerMetadata sl :: gcodes := by
  simp only [mkCanonical]
  rw [show [metaBlock tagFileMetadata fm, metaBlock tagPrinterMetadata pm] ++ thumbs ++
      [metaBlock tagPrintMetadata pr, metaBlock tagSlicerMetadata sl] ++ gcodes =
    ([metaBlock tagFileMetadata fm, metaBlock tagPrinterMetadata pm] ++ thumbs) ++
      (metaBlock tagPrintMetadata pr :: metaBlock tagSlicerMetadata sl :: gcodes) from by
    simp]
  exact List.drop_left' (by simp; omega)

theorem resume_canonical (fm pm pr sl : List (List Char × List Char))
    (thumbs gcodes : List Block) (out : List Char) :
    resumePhases (mkCanonical fm pm pr sl thumbs gcodes) (2 + thumbs.length) out =
      (.Success, out ++ ['\n'] ++ write_metadata pr ++ slicerOut sl) := by
  rw [resumePhases, canonical_drop]
  simp only [read_next_block_header, read_metadata, metaBlock_type, metaBlock_payload,
    ne_eq, not_true_eq_false, if_false]
  rw [slicerOut]
  simp only [List.append_assoc]

theorem run_canonical (fm pm pr sl : List (List Char × List Char))
    (thumbs gcodes : List Block)
    (ht : ∀ b ∈ thumbs, isThumbBlockB b) (hg : ∀ b ∈ gcodes, isGCodeBlockB b)
    (hne : gcodes ≠ []) :
    from_binary_to_ascii (mkCanonical fm pm pr sl thumbs gcodes) =
      (.Success,
        producerOut fm ++ write_metadata pm ++ (thumbs.map thumbFramingOf).flatten ++
          ['\n'] ++ (gcodes.map gcodeOutOf).flatten ++ ['\n'] ++ write_metadata pr ++
          slicerOut sl) := by
  rw [canonical_to_resume fm pm pr sl thumbs gcodes ht hg hne, resume_canonical]

theorem pipeline_general (fm pm : List (List Char × List Char)) (thumbs : List Block)
    (b : Block) (rest : List Block) (found : List Block) (L : List Char)
    (ht : ∀ t ∈ thumbs, isThumbBlockB t) (hb : ¬ b.type = tagThumbnail)
    (hsearch : read_next_block_header_searching tagGCode rest = .ok found)
    (hloop : ∀ out, gcodeLoop found out = (.Success, [], out ++ L)) :
    from_binary_to_ascii ⟨metaBlock tagFileMetadata fm :: metaBlock tagPrinterMetadata pm ::
        (thumbs ++ b :: rest), .Success, .Success⟩ =
      resumePhases ⟨metaBlock tagFileMetadata fm :: metaBlock tagPrinterMetadata pm ::
          (thumbs ++ b :: rest), .Success, .Success⟩ (2 + thumbs.length)
        (producerOut fm ++ write_metadata pm ++ (thumbs.map thumbFramingOf).flatten ++
          ['\n'] ++ L) := by
  rw [from_binary_to_ascii]
  simp only [ne_eq, not_true_eq_false, if_false]
  simp only [read_next_block_header, read_metadata, metaBlock_type, metaBlock_payload,
    ne_eq, not_true_eq_false, if_false]
  rw [afterFileMetadata]
  simp only [read_next_block_header, read_metadata, metaBlock_type, metaBlock_payload,
    ne_eq, not_true_eq_false, if_false]
  rw [thumbnailsRun_spec _ thumbs b rest _ ht hb]
  simp only [ne_eq, not_true_eq_false, if_false, reduceCtorEq]
  rw [gcodePhase]
  have hskip : skip_block_content (b :: rest) = Except.ok rest := rfl
  simp only [hskip, hsearch]
  rw [hloop]
  simp only [ne_eq, not_true_eq_false, if_false, reduceCtorEq]
  have harith : file_size (Container.mk (metaBlock tagFileMetadata fm ::
      metaBlock tagPrinterMetadata pm :: (thumbs ++ b :: rest))
      EResult.Success EResult.Success) - (b :: rest).length = 2 + thumbs.length := by
    simp [file_size]
    omega
  rw [harith]

/-- C3: at each of the four positions where a specific block type is mandated
(FileMetadata, PrinterMetadata, PrintMetadata, SlicerMetadata), a header
carrying a different type makes `from_binary_to_ascii` return
`InvalidSequenceOfBlocks`, and the returned output is exactly what had been
flushed before the failed check - nothing past that point is decoded or
written. -/
theorem mandated_block_type_mismatch :
    (∀ (b : Block) (bs : List Block), ¬ b.type = tagFileMetadata →
      from_binary_to_ascii ⟨b :: bs, .Success, .Success⟩ =
        (.InvalidSequenceOfBlocks, [])) ∧
    (∀ (fm : List (List Char × List Char)) (b : Block) (bs : List Block),
      ¬ b.type = tagPrinterMetadata →
      from_binary_to_ascii ⟨metaBlock tagFileMetadata fm :: b :: bs, .Success, .Success⟩ =
        (.InvalidSequenceOfBlocks, producerOut fm)) ∧
    (∀ (fm pm : List (List Char × List Char)) (thumbs : List Block) (b g : Block),
      (∀ t ∈ thumbs, isThumbBlockB t) → ¬ b.type = tagThumbnail →
      ¬ b.type = tagPrintMetadata → isGCodeBlockB g →
      from_binary_to_ascii ⟨metaBlock tagFileMetadata fm :: metaBlock tagPrinterMetadata pm ::
          (thumbs ++ b :: [g]), .Success, .Success⟩ =
        (.InvalidSequenceOfBlocks,
          producerOut fm ++ write_metadata pm ++ (thumbs.map thumbFramingOf).flatten ++
            ['\n'] ++ gcodeOutOf g)) ∧
    (∀ (fm pm pr : List (List Char × List Char)) (thumbs : List Block) (b g : Block),
      (∀ t ∈ thumbs, isThumbBlockB t) → ¬ b.type = tagGCode →
      ¬ b.type = tagSlicerMetadata → isGCodeBlockB g →
      from_binary_to_ascii ⟨metaBlock tagFileMetadata fm :: metaBlock tagPrinterMetadata pm ::
          (thumbs ++ metaBlock tagPrintMetadata pr :: b :: [g]), .Success, .Success⟩ =
        (.InvalidSequenceOfBlocks,
          producerOut fm ++ write_metadata pm ++ (thumbs.map thumbFramingOf).flatten ++
            ['\n'] ++ gcodeOutOf g ++ ['\n'] ++ write_metadata pr)) := by
  refine ⟨?_, ?_, ?_, ?_⟩
  · intro b bs hb
    rw [from_binary_to_ascii]
    simp only [ne_eq, not_true_eq_false, if_false]
    simp only [show read_next_block_header (b :: bs) = Except.ok b.type from rfl,
      ne_eq, hb, not_false_eq_true, if_true]
  · intro fm b bs hb
    rw [from_binary_to_ascii]
    simp only [ne_eq, not_true_eq_false, if_false]
    simp only [read_next_block_header, read_metadata, metaBlock_type, metaBlock_payload,
      ne_eq, not_true_eq_false, if_false]
    rw [afterFileMetadata]
    simp only [show read_next_block_header (b :: bs) = Except.ok b.type from rfl,
      ne_eq, hb, not_false_eq_true, if_true]
  · intro fm pm thumbs b g ht hb hbp hg
    obtain ⟨hgtype, raw, hgpay⟩ := isGCodeBlockB_elim g hg
    rw [pipeline_general fm pm thumbs b [g] [g] (gcodeOutOf g) ht hb
      (by simp [read_next_block_header_searching, hgtype])
      (fun out => by
        simp only [gcodeLoop, if_pos hgtype, hgpay, List.isEmpty_nil, if_true,
          gcodeOutOf])]
    rw [resumePhases]
    have hdrop : (Container.mk (metaBlock tagFileMetadata fm ::
        metaBlock tagPrinterMetadata pm :: (thumbs ++ b :: [g]))
        EResult.Success EResult.Success).blocks.drop (2 + thumbs.length) = b :: [g] := by
      show (metaBlock tagFileMetadata fm :: metaBlock tagPrinterMetadata pm ::
        (thumbs ++ b :: [g])).drop (2 + thumbs.length) = b :: [g]
      rw [show metaBlock tagFileMetadata fm :: metaBlock tagPrinterMetadata pm ::
          (thumbs ++ b :: [g]) =
        (metaBlock tagFileMetadata fm :: metaBlock tagPrinterMetadata pm :: thumbs) ++
          (b :: [g]) from by simp]
      exact List.drop_left' (by simp; omega)
    rw [hdrop]
    simp only [show read_next_block_header (b :: [g]) = Except.ok b.type from rfl,
      ne_eq, hbp, not_false_eq_true, if_true]
  · intro fm pm pr thumbs b g ht hb hbs hg
    obtain ⟨hgtype, raw, hgpay⟩ := isGCodeBlockB_elim g hg
    rw [pipeline_general fm pm thumbs (metaBlock tagPrintMetadata pr) (b :: [g]) [g]
      (gcodeOutOf g) ht (by simp [metaBlock_type, tagPrintMetadata, tagThumbnail])
      (by simp [read_next_block_header_searching, hb, hgtype])
      (fun out => by
        simp only [gcodeLoop, if_pos hgtype, hgpay, List.isEmpty_nil, if_true,
          gcodeOutOf])]
    rw [resumePhases]
    have hdrop : (Container.mk (metaBlock tagFileMetadata fm ::
        metaBlock tagPrinterMetadata pm ::
          (thumbs ++ metaBlock tagPrintMetadata pr :: b :: [g]))
        EResult.Success EResult.Success).blocks.drop (2 + thumbs.length) =
        metaBlock tagPrintMetadata pr :: b :: [g] := by
      show (metaBlock tagFileMetadata fm :: metaBlock tagPrinterMetadata pm ::
        (thumbs ++ metaBlock tagPrintMetadata pr :: b :: [g])).drop (2 + thumbs.length) =
        metaBlock tagPrintMetadata pr :: b :: [g]
      rw [show metaBlock tagFileMetadata fm :: metaBlock tagPrinterMetadata pm ::
          (thumbs ++ metaBlock tagPrintMetadata pr :: b :: [g]) =
        (metaBlock tagFileMetadata fm :: metaBlock tagPrinterMetadata pm :: thumbs) ++
          (metaBlock tagPrintMetadata pr :: b :: [g]) from by simp]
      exact List.drop_left' (by simp; omega)
    rw [hdrop]
    simp only [read_next_block_header, read_metadata, metaBlock_type, metaBlock_payload,
      ne_eq, not_true_eq_false, if_false]
    simp only [show read_next_block_header (b :: [g]) = Except.ok b.type from rfl,
      ne_eq, hbs, not_false_eq_true, if_true]

theorem mandated_block_type_mismatch_witness :
    from_binary_to_ascii ⟨[metaBlock tagGCode []], .Success, .Success⟩ =
      (.InvalidSequenceOfBlocks, []) ∧
    from_binary_to_ascii ⟨[metaBlock tagFileMetadata [], metaBlock tagGCode []],
        .Success, .Success⟩ = (.InvalidSequenceOfBlocks, producerOut []) ∧
    from_binary_to_ascii ⟨[metaBlock tagFileMetadata [], metaBlock tagPrinterMetadata [],
        metaBlock tagSlicerMetadata [], Block.mk tagGCode (.gcode "G1\n".data)],
        .Success, .Success⟩ =
      (.InvalidSequenceOfBlocks,
        producerOut [] ++ write_metadata [] ++ (([] : List Block).map thumbFramingOf).flatten ++
          ['\n'] ++ gcodeOutOf (Block.mk tagGCode (.gcode "G1\n".data))) ∧
    from_binary_to_ascii ⟨[metaBlock tagFileMetadata [], metaBlock tagPrinterMetadata [],
        metaBlock tagPrintMetadata [], metaBlock tagPrinterMetadata [],
        Block.mk tagGCode (.gcode "G1\n".data)], .Success, .Success⟩ =
      (.InvalidSequenceOfBlocks,
        producerOut [] ++ write_metadata [] ++ (([] : List Block).map thumbFramingOf).flatten ++
          ['\n'] ++ gcodeOutOf (Block.mk tagGCode (.gcode "G1\n".data)) ++ ['\n'] ++
          write_metadata []) :=
  ⟨mandated_block_type_mismatch.1 (metaBlock tagGCode []) [] (by decide),
   mandated_block_type_mismatch.2.1 [] (metaBlock tagGCode []) [] (by decide),
   mandated_block_type_mismatch.2.2.1 [] [] [] (metaBlock tagSlicerMetadata [])
     (Block.mk tagGCode (.gcode "G1\n".data)) (by decide) (by decide) (by decide) (by decide),
   mandated_block_type_mismatch.2.2.2 [] [] [] [] (metaBlock tagPrinterMetadata [])
     (Block.mk tagGCode (.gcode "G1\n".data)) (by decide) (by decide) (by decide) (by decide)⟩

/-- C6: for a well-formed container with `k ≥ 1` thumbnail blocks the output
is exactly the producer line, the printer-metadata lines, the `k` thumbnail
framings in order, the gap line, the GCode text, and the print- and
slicer-metadata sections - so the `k` framings sit between the
printer-metadata lines and the GCode text - and each framing's begin line
carries exactly the character count of that framing's concatenated stripped
body rows. -/
theorem thumbnail_framing_count (fm pm pr sl : List (List Char × List Char))
    (thumbs gcodes : List Block) (k : Nat)
    (ht : ∀ b ∈ thumbs, isThumbBlockB b) (hg : ∀ b ∈ gcodes, isGCodeBlockB b)
    (hne : gcodes ≠ []) (hk : thumbs.length = k) (_hk1 : 1 ≤ k) :
    from_binary_to_ascii (mkCanonical fm pm pr sl thumbs gcodes) =
      (.Success,
        producerOut fm ++ write_metadata pm ++ (thumbs.map thumbFramingOf).flatten ++
          ['\n'] ++ (gcodes.map gcodeOutOf).flatten ++ ['\n'] ++ write_metadata pr ++
          slicerOut sl) ∧
    (thumbs.map thumbFramingOf).length = k ∧
    (∀ b ∈ thumbs, ∀ f w h d, b.payload = .thumbnail f w h d →
      thumbFramingOf b =
        thumbBeginLine f w h ((wrapRows (base64Encode d)).flatten).length ++
          thumbBody d ++ thumbEndLine f) := by
  refine ⟨run_canonical fm pm pr sl thumbs gcodes ht hg hne, by simp [hk], ?_⟩
  intro b hb f w h d hpay
  simp only [thumbFramingOf, hpay]
  rw [thumbFraming, wrapRows_flatten]

theorem thumbnail_framing_count_witness :
    ([Block.mk tagThumbnail (.thumbnail 0 16 16 [1, 2, 3])].map thumbFramingOf).length = 1 :=
  (thumbnail_framing_count [] [] [] [] [Block.mk tagThumbnail (.thumbnail 0 16 16 [1, 2, 3])]
    [Block.mk tagGCode (.gcode "G1 X0\n".data)] 1 (by decide) (by decide) (by decide)
    (by decide) (by decide)).2.1

/-- C8: when the decoded file-metadata block holds no pair with key
"Producer", the first output `from_binary_to_ascii` writes is exactly the
default producer line `"; generated by Unknown\n\n\n"`. -/
theorem producer_default_line (c : Container) (fm : List (List Char × List Char))
    (tail : List Block)
    (hv : c.validRes = .Success) (hh : c.headerRes = .Success)
    (hb : c.blocks = metaBlock tagFileMetadata fm :: tail)
    (hp : findPair "Producer".data fm = none) :
    ∃ rest, (from_binary_to_ascii c).2 = "; generated by Unknown\n\n\n".data ++ rest := by
  have hprod : producerOut fm = "; generated by Unknown\n\n\n".data := by
    rw [producerOut, hp]
    rfl
  rw [from_binary_to_ascii, hv, hh]
  simp only [ne_eq, not_true_eq_false, if_false]
  rw [hb]
  simp only [read_next_block_header, read_metadata, metaBlock_type, metaBlock_payload,
    ne_eq, not_true_eq_false, if_false]
  obtain ⟨d, hd⟩ := afterFileMetadata_out_mono c tail (producerOut fm)
  exact ⟨d, by rw [hd, hprod]⟩

theorem producer_default_line_witness :
    ∃ rest, (from_binary_to_ascii ⟨[metaBlock tagFileMetadata [("x".data, "y".data)]],
      .Success, .Success⟩).2 = "; generated by Unknown\n\n\n".data ++ rest :=
  producer_default_line _ [("x".data, "y".data)] [] rfl rfl rfl (by decide)

/-- C4: the offset `restore_position`, re-recorded before each candidate
thumbnail-loop header read and last updated just before the header that
terminates the loop, (i) equals the stream offset at which that terminating
header is read, (ii) passes through the whole GCode conversion phase
unchanged, and (iii) on a well-formed container the run hands exactly the
offset recorded before the terminating header (the offset of the
PrintMetadata block, `2 + thumbs.length`) to the resumed tail, which
re-slices the source there and finds the PrintMetadata block at its head. -/
theorem restore_position_invariant (fl : Nat) (thumbs : List Block) (b : Block)
    (rest : List Block) (out : List Char)
    (ht : ∀ t ∈ thumbs, isThumbBlockB t) (hb : ¬ b.type = tagThumbnail)
    (stream2 : List Block) (restore2 : Nat) (out2 : List Char)
    (fm pm pr sl : List (List Char × List Char)) (gcodes : List Block)
    (hg : ∀ x ∈ gcodes, isGCodeBlockB x) (hne : gcodes ≠ []) :
    (thumbnailsRun fl (thumbs ++ b :: rest) (fl - (thumbs ++ b :: rest).length)
        out).2.2.1 = fl - (b :: rest).length ∧
    (gcodePhase stream2 restore2 out2).2.2.1 = restore2 ∧
    from_binary_to_ascii (mkCanonical fm pm pr sl thumbs gcodes) =
      resumePhases (mkCanonical fm pm pr sl thumbs gcodes) (2 + thumbs.length)
        (producerOut fm ++ write_metadata pm ++ (thumbs.map thumbFramingOf).flatten ++
          ['\n'] ++ (gcodes.map gcodeOutOf).flatten) ∧
    (mkCanonical fm pm pr sl thumbs gcodes).blocks.drop (2 + thumbs.length) =
      metaBlock tagPrintMetadata pr :: metaBlock tagSlicerMetadata sl :: gcodes := by
  refine ⟨?_, gcodePhase_restore stream2 restore2 out2,
    canonical_to_resume fm pm pr sl thumbs gcodes ht hg hne,
    canonical_drop fm pm pr sl thumbs gcodes⟩
  rw [thumbnailsRun_spec fl thumbs b rest out ht hb]

theorem restore_position_invariant_witness :
    (thumbnailsRun 5 ([Block.mk tagThumbnail (.thumbnail 0 1 1 [])] ++
        metaBlock tagPrintMetadata [] :: [metaBlock tagSlicerMetadata []])
        (5 - ([Block.mk tagThumbnail (.thumbnail 0 1 1 [])] ++
          metaBlock tagPrintMetadata [] :: [metaBlock tagSlicerMetadata []]).length)
        []).2.2.1 =
      5 - (metaBlock tagPrintMetadata [] :: [metaBlock tagSlicerMetadata []]).length :=
  (restore_position_invariant 5 [Block.mk tagThumbnail (.thumbnail 0 1 1 [])]
    (metaBlock tagPrintMetadata []) [metaBlock tagSlicerMetadata []] []
    (by decide) (by decide) [] 0 [] [] [] [] []
    [Block.mk tagGCode (.gcode "G1\n".data)] (by decide) (by decide)).1

/-- C9: in the GCode loop, after a GCode block is converted the loop stops
with Success - not an error - exactly when the stream position (total length
minus the remaining suffix) equals the container's total length `file_size`,
regardless of what the remaining data would hold; otherwise the next block
header is read and the loop continues precisely while its type is GCode,
stopping successfully at the first non-GCode header. -/
theorem gcode_loop_termination (c : Container) (pre rest : List Block) (b : Block)
    (raw : List Char) (out : List Char)
    (hsplit : c.blocks = pre ++ b :: rest) (htype : b.type = tagGCode)
    (hpay : b.payload = .gcode raw) :
    (file_size c - rest.length = file_size c →
      gcodeLoop (b :: rest) out = (.Success, rest, out ++ remove_empty_lines raw)) ∧
    (file_size c - rest.length ≠ file_size c →
      gcodeLoop (b :: rest) out = gcodeLoop rest (out ++ remove_empty_lines raw) ∧
      (∀ b2 rest2, rest = b2 :: rest2 → ¬ b2.type = tagGCode →
        gcodeLoop (b :: rest) out = (.Success, rest, out ++ remove_empty_lines raw))) := by
  have hlt : rest.length < file_size c := by
    rw [file_size, hsplit]
    simp
    omega
  constructor
  · intro h
    have hrest : rest = [] := by
      have : rest.length = 0 := by omega
      exact List.length_eq_zero.mp this
    subst hrest
    simp [gcodeLoop, htype, hpay]
  · intro h
    have hrestne : rest ≠ [] := by
      intro hr
      subst hr
      simp at h
    have hemp : rest.isEmpty = false := by
      cases rest with
      | nil => cases hrestne rfl
      | cons x xs => rfl
    constructor
    · simp [gcodeLoop, htype, hpay, hemp]
    · intro b2 rest2 hr hb2
      subst hr
      simp [gcodeLoop, htype, hpay, hemp, hb2]

theorem gcode_loop_termination_witness :
    gcodeLoop (Block.mk tagGCode (.gcode "G1\n".data) :: []) [] =
      (.Success, [], [] ++ remove_empty_lines "G1\n".data) :=
  (gcode_loop_termination ⟨[Block.mk tagGCode (.gcode "G1\n".data)], .Success, .Success⟩
    [] [] (Block.mk tagGCode (.gcode "G1\n".data)) "G1\n".data [] rfl rfl rfl).1 (by decide)

/-- The container pair of the C10 counterexample: identical except for the
payload of the PrintMetadata block, which is the block whose header
terminates the (empty) thumbnail loop. -/
def c10Container (v : List Char) : Container :=
  ⟨[metaBlock tagFileMetadata [], metaBlock tagPrinterMetadata [],
    metaBlock tagPrintMetadata [("Layers".data, v)], metaBlock tagSlicerMetadata [],
    Block.mk tagGCode (.gcode "G1\n".data)], .Success, .Success⟩

/-- C10 (counterexample): two containers that differ only in the payload of
the block whose header terminated the thumbnail loop - here the PrintMetadata
block - and on which the skip and the subsequent typed header read succeed
(both runs return Success) nevertheless produce different output: the seek
back to `restore_position` revisits that very block and decodes its payload. -/
theorem skipped_payload_counterexample :
    (from_binary_to_ascii (c10Container "10".data)).1 = EResult.Success ∧
    (from_binary_to_ascii (c10Container "11".data)).1 = EResult.Success ∧
    (from_binary_to_ascii (c10Container "10".data)).2 ≠
      (from_binary_to_ascii (c10Container "11".data)).2 := by
  decide

/-- C10 (amended): the payload of the block whose header terminated the
thumbnail loop is skipped without being decoded or emitted *before the
seek-back*: two containers differing only in that block's payload give the
thumbnail phase identical result code, restore offset and output, and the
entire GCode conversion phase behaves identically on the two streams; only
the resumed tail, which seeks back and decodes that block as the
PrintMetadata block, can observe the payload. -/
theorem skipped_payload_not_read_before_resume (fl : Nat) (thumbs : List Block)
    (b1 b2 : Block) (rest : List Block) (out : List Char) (restore : Nat)
    (outg : List Char)
    (ht : ∀ t ∈ thumbs, isThumbBlockB t) (hty : b1.type = b2.type)
    (hnt : ¬ b1.type = tagThumbnail) :
    (thumbnailsRun fl (thumbs ++ b1 :: rest) (fl - (thumbs ++ b1 :: rest).length) out).1 =
      (thumbnailsRun fl (thumbs ++ b2 :: rest) (fl - (thumbs ++ b2 :: rest).length) out).1 ∧
    (thumbnailsRun fl (thumbs ++ b1 :: rest) (fl - (thumbs ++ b1 :: rest).length)
        out).2.2 =
      (thumbnailsRun fl (thumbs ++ b2 :: rest) (fl - (thumbs ++ b2 :: rest).length)
        out).2.2 ∧
    gcodePhase (b1 :: rest) restore outg = gcodePhase (b2 :: rest) restore outg := by
  have hnt2 : ¬ b2.type = tagThumbnail := by rw [← hty]; exact hnt
  rw [thumbnailsRun_spec fl thumbs b1 rest out ht hnt,
    thumbnailsRun_spec fl thumbs b2 rest out ht hnt2]
  refine ⟨rfl, rfl, ?_⟩
  rw [gcodePhase, gcodePhase]
  simp only [show skip_block_content (b1 :: rest) = Except.ok rest from rfl,
    show skip_block_content (b2 :: rest) = Except.ok rest from rfl]

theorem skipped_payload_not_read_before_resume_witness :
    gcodePhase (metaBlock tagPrintMetadata [("Layers".data, "10".data)] ::
        [Block.mk tagGCode (.gcode "G1\n".data)]) 2 [] =
      gcodePhase (metaBlock tagPrintMetadata [("Layers".data, "11".data)] ::
        [Block.mk tagGCode (.gcode "G1\n".data)]) 2 [] :=
  (skipped_payload_not_read_before_resume 5 []
    (metaBlock tagPrintMetadata [("Layers".data, "10".data)])
    (metaBlock tagPrintMetadata [("Layers".data, "11".data)])
    [Block.mk tagGCode (.gcode "G1\n".data)] [] 2 []
    (by decide) (by decide) (by decide)).2.2

end LibBgcode
